import Mathlib

/-!
Shallow embedding of the search core of `tachibana-shin/cli`
(`pkg/cmd/search/shared/qualifier.go`, `pkg/cmd/search/shared/searcher.go`,
and the `search` package types), together with theorems settling the
claims about it.

Strings are handled through their `List Char` data; Go integers are
modelled as `Int` (the values involved stay far below any overflow
boundary); fallible Go code (errors, panics) is modelled with
`Option`/`Except`.
-/

namespace GhSearch

/-! ## Character helpers -/

/-- The character class checked by `strings.ContainsAny(k, " \"\t\r\n")` in
`quoteKeyword` / `quoteQualifier` (searcher.go lines 120, 131). -/
def isQuoteWs (c : Char) : Bool :=
  c = ' ' || c = '"' || c = '\t' || c = '\r' || c = '\n'

/-- containsAnyQuoteWs models `strings.ContainsAny(s, " \"\t\r\n")`. -/
def containsAnyQuoteWs (l : List Char) : Bool :=
  l.any isQuoteWs

/-- ASCII digit, the `\d` class of Go's regexp package. -/
def isDig (c : Char) : Bool :=
  '0' ≤ c && c ≤ '9'

/-- Whitespace per Go's `unicode.IsSpace` restricted to Latin-1
(`\t`..`\r`, space, NEL, NBSP), as used by `strings.TrimSpace`. -/
def isSpaceGo (c : Char) : Bool :=
  c = ' ' || ('\t' ≤ c && c ≤ '\r') || c = Char.ofNat 133 || c = Char.ofNat 160

/-- trimSpace models `strings.TrimSpace` (leading and trailing
whitespace removed). -/
def trimSpace (s : String) : String :=
  ⟨((s.data.dropWhile isSpaceGo).reverse.dropWhile isSpaceGo).reverse⟩

/-- goEscapeChar models the per-character escaping of Go's
`strconv.Quote` (the `%q` verb) for the characters that occur in this
code's inputs: quote, backslash and the control characters of the
`ContainsAny` class get a backslash escape, printable characters pass
through. -/
def goEscapeChar (c : Char) : List Char :=
  if c = '"' then ['\\', '"']
  else if c = '\\' then ['\\', '\\']
  else if c = '\t' then ['\\', 't']
  else if c = '\r' then ['\\', 'r']
  else if c = '\n' then ['\\', 'n']
  else [c]

/-- goQuote models Go's `strconv.Quote` on the character list: wrap in
double quotes, escaping the content. -/
def goQuote (l : List Char) : List Char :=
  '"' :: (l.flatMap goEscapeChar ++ ['"'])

/-- goQuoteStr is `fmt.Sprintf("%q", s)` on strings. -/
def goQuoteStr (s : String) : String :=
  ⟨goQuote s.data⟩

/-! ## Keyword and qualifier quoting (searcher.go lines 112-135) -/

/-- splitN2Colon models `strings.SplitN(k, ":", 2)`: the part before the
first colon, and — when a colon is present — `some` of the part after
it. -/
def splitN2Colon : List Char → List Char × Option (List Char)
  | [] => ([], none)
  | c :: rest =>
    if c = ':' then ([], some rest)
    else
      let p := splitN2Colon rest
      (c :: p.1, p.2)

/-- quoteKeyword embeds `quoteKeyword` (searcher.go lines 119-128): a
keyword containing whitespace or a quote is quoted with `%q`, except
that when it also contains a colon only the part after the first colon
is quoted. -/
def quoteKeyword (k : String) : String :=
  if containsAnyQuoteWs k.data then
    if k.data.contains ':' then
      match splitN2Colon k.data with
      | (before, some after) => ⟨before ++ ':' :: goQuote after⟩
      | (_, none) => goQuoteStr k
    else goQuoteStr k
  else k

/-- quoteQualifier embeds `quoteQualifier` (searcher.go lines 130-135). -/
def quoteQualifier (q : String) : String :=
  if containsAnyQuoteWs q.data then goQuoteStr q else q

/-! ## Qualifier / Parameter (qualifier.go) -/

/-- Qualifier embeds the `qualifier` struct (qualifier.go lines 20-26).
`parameter` is a type alias of `qualifier` in the source, so this one
structure covers both roles. A validator is an optional function
returning `some errorMessage` on rejection, `none` on acceptance
(Go's nil-able `func(string) error`). -/
structure Qualifier where
  key : String
  kind : String
  set : Bool
  validator : Option (String → Option String)
  value : String

/-- NewQualifier embeds `NewQualifier` (qualifier.go lines 30-37): `set`
starts at Go's zero value `false`. `NewParameter` is textually
identical. -/
def NewQualifier (key kind value : String) (validator : Option (String → Option String)) :
    Qualifier :=
  { key := key, kind := kind, set := false, validator := validator, value := value }

/-- setQ embeds the method `Set` (qualifier.go lines 56-66). Go mutates
the receiver; here the pair carries the error (if any) and the
post-call state. -/
def setQ (q : Qualifier) (v : String) : Option String × Qualifier :=
  match q.validator with
  | some f =>
    match f v with
    | some err => (some err, q)
    | none => (none, { q with set := true, value := v })
  | none => (none, { q with set := true, value := v })

/-- accepts says whether the qualifier's validator accepts a candidate
(vacuously true with no validator). -/
def accepts (q : Qualifier) (v : String) : Bool :=
  match q.validator with
  | some f => (f v).isNone
  | none => true

/-- applySets runs a sequence of `Set` calls, threading the state. -/
def applySets (q : Qualifier) : List String → Qualifier
  | [] => q
  | v :: vs => applySets (setQ q v).2 vs

/-- ListSet embeds `Qualifiers.ListSet` (the `search` package): the
key/value pairs of exactly the qualifiers whose `set` flag is true.
The Go version collects them in a map; the pair list keeps the claims'
content (which pairs are contributed) without the map's key collapsing. -/
def ListSet (qs : List Qualifier) : List (String × String) :=
  (qs.filter (fun q => q.set)).map (fun q => (q.key, q.value))

/-! ## Range validator (qualifier.go lines 14, 121-128)

The regular expression
`^(>|>=|<|<=|\*\.\.)?\d+(\.\.(\*|\d+))?$`
is embedded as an executable matcher: optional comparator literal, then
a nonempty digit run, then optionally `..` followed by `*` or a
nonempty digit run, consuming the whole string. -/

/-- matchTailEnd decides `(\*|\d+)$`: either the single star, or a
nonempty all-digit remainder. -/
def matchTailEnd (l : List Char) : Bool :=
  if l = ['*'] then true else !l.isEmpty && l.all isDig

/-- matchTail decides `(\.\.(\*|\d+))?$`: the empty remainder, or `..`
followed by `matchTailEnd`. -/
def matchTail : List Char → Bool
  | [] => true
  | [_] => false
  | c1 :: c2 :: rest => c1 = '.' && c2 = '.' && matchTailEnd rest

/-- matchAfter decides `\d+(\.\.(\*|\d+))?$`: a nonempty leading digit
run, then `matchTail` on the rest. -/
def matchAfter (r : List Char) : Bool :=
  !(r.takeWhile isDig).isEmpty && matchTail (r.dropWhile isDig)

/-- dropLit strips an exact literal from the front of a list, `none`
when it is not there. -/
def dropLit : List Char → List Char → Option (List Char)
  | [], s => some s
  | _ :: _, [] => none
  | c :: cs, x :: xs => if c = x then dropLit cs xs else none

/-- matchWith tries one comparator alternative then the rest of the
pattern. -/
def matchWith (p : List Char) (s : List Char) : Bool :=
  match dropLit p s with
  | some r => matchAfter r
  | none => false

/-- The alternatives of the optional comparator group
`(>|>=|<|<=|\*\.\.)?` — including the empty choice. -/
def rangeStarts : List (List Char) :=
  [[], ['>'], ['>', '='], ['<'], ['<', '='], ['*', '.', '.']]

/-- matchRange decides the whole anchored regular expression
`rangeRE`. -/
def matchRange (s : List Char) : Bool :=
  rangeStarts.any (fun p => matchWith p s)

/-- rangeREMatch is `rangeRE.MatchString` on strings. -/
def rangeREMatch (s : String) : Bool :=
  matchRange s.data

/-- RangeValidator embeds `RangeValidator()` applied to a value
(qualifier.go lines 121-128): `none` on acceptance, a descriptive error
on rejection. -/
def RangeValidator (value : String) : Option String :=
  if rangeREMatch value then none
  else some (value ++ " is an invalid range format")

/-! ## URL query values (Go `net/url.Values`, as used by the searcher)

The searcher manipulates `url.Values` through `Set`, `Add`, `Encode`,
and later `Query().Get("q")`. The map-of-lists is modelled as a pair
list; `Encode` sorts keys, as Go does. -/

/-- Character kept verbatim by Go's `url.QueryEscape`: alphanumerics
and `-`, `_`, `.`, `~`. -/
def isUnescapedGo (c : Char) : Bool :=
  c.isAlphanum || c = '-' || c = '_' || c = '.' || c = '~'

/-- Upper-case hex digit for a value below 16. -/
def hexChar (n : Nat) : Char :=
  if n < 10 then Char.ofNat ('0'.toNat + n) else Char.ofNat ('A'.toNat + n - 10)

/-- queryEscape models Go's `url.QueryEscape` on ASCII text: keep
unreserved characters, turn a space into `+`, percent-encode the
rest. -/
def queryEscape (s : String) : String :=
  ⟨s.data.flatMap (fun c =>
    if isUnescapedGo c then [c]
    else if c = ' ' then ['+']
    else ['%', hexChar (c.toNat / 16), hexChar (c.toNat % 16)])⟩

/-- valuesSet models `url.Values.Set`: replace every binding of the
key with the single new one. -/
def valuesSet (vs : List (String × String)) (k v : String) : List (String × String) :=
  vs.filter (fun kv => kv.1 ≠ k) ++ [(k, v)]

/-- valuesAdd models `url.Values.Add`: append one binding. -/
def valuesAdd (vs : List (String × String)) (k v : String) : List (String × String) :=
  vs ++ [(k, v)]

/-- valuesGet models `url.Values.Get`: first value bound to the key,
or the empty string. -/
def valuesGet (vs : List (String × String)) (k : String) : String :=
  match vs.filter (fun kv => kv.1 == k) with
  | [] => ""
  | kv :: _ => kv.2

/-- Insertion into a ≤-sorted list of strings. -/
def insertSorted (x : String) : List String → List String
  | [] => [x]
  | y :: ys => if x ≤ y then x :: y :: ys else y :: insertSorted x ys

/-- Sort a list of strings, as Go's `sort.Strings` over map keys. -/
def sortStrings (l : List String) : List String :=
  l.foldr insertSorted []

/-- The distinct keys of a values list, first occurrence first. -/
def uniqueKeys (vs : List (String × String)) : List String :=
  (vs.map Prod.fst).foldl (fun acc k => if k ∈ acc then acc else acc ++ [k]) []

/-- valuesEncode models `url.Values.Encode`: keys in sorted order, each
binding rendered `key=value` with both sides query-escaped, joined by
`&`. -/
def valuesEncode (vs : List (String × String)) : String :=
  String.intercalate "&"
    ((sortStrings (uniqueKeys vs)).flatMap (fun k =>
      (vs.filter (fun kv => kv.1 == k)).map (fun kv =>
        queryEscape k ++ "=" ++ queryEscape kv.2)))

/-- URLModel keeps a request URL structurally: the path part and the
query-string bindings. `render` is `url.URL.String`, `getParam` is
`url.URL.Query().Get`. -/
structure URLModel where
  path : String
  query : List (String × String)
  deriving DecidableEq

/-- Rendered form of a request URL. -/
def URLModel.render (u : URLModel) : String :=
  u.path ++ "?" ++ valuesEncode u.query

/-- First query-string value for a key (Go `Values.Get` after
`URL.Query()`). -/
def URLModel.getParam (u : URLModel) (k : String) : String :=
  valuesGet u.query k

/-! ## The search data model (the `search` package) -/

/-- Items are opaque decoded records (`[]map[string]interface{}`); the
core only passes them through, so their entries are modelled as plain
key/value text pairs. -/
abbrev Item := List (String × String)

/-- Result embeds `search.Result`. -/
structure Result where
  incompleteResults : Bool := false
  items : List Item := []
  totalCount : Int := 0
  deriving DecidableEq

/-- Query embeds `search.Query`. `Order` and `Sort` are Parameters,
which are qualifiers in the source; the qualifier map is carried as a
list. -/
structure Query where
  keywords : List String
  kind : String
  limit : Int
  order : Qualifier
  sort : Qualifier
  qualifiers : List Qualifier

/-! ## HTTP error classification (searcher.go lines 137-178) -/

/-- HttpErrorItem embeds `httpErrorItem`. -/
structure HttpErrorItem where
  code : String := ""
  field : String := ""
  message : String := ""
  resource : String := ""
  deriving DecidableEq

/-- HttpError embeds `httpError`. -/
structure HttpError where
  errors : List HttpErrorItem
  message : String
  requestURL : URLModel
  statusCode : Int
  deriving DecidableEq

/-- HttpError.Error embeds the method `Error` (searcher.go lines
153-159). The 422 branch indexes `err.Errors[0]`, which panics in Go
when the list is empty; the panic is modelled as `none`. -/
def HttpError.Error (e : HttpError) : Option String :=
  if e.statusCode ≠ 422 then
    some ("HTTP " ++ toString e.statusCode ++ ": " ++ e.message ++ " (" ++
      e.requestURL.render ++ ")")
  else
    match e.errors with
    | [] => none
    | e0 :: _ =>
      some ("Invalid search query " ++ goQuoteStr (trimSpace (e.requestURL.getParam "q")) ++
        ".\n" ++ e0.message)

/-- jsonAt checks the pattern `[/+]json($|;)` of `jsonTypeRE` at the
head of a character list. -/
def jsonAt : List Char → Bool
  | c :: 'j' :: 's' :: 'o' :: 'n' :: rest =>
    (c = '/' || c = '+') && (rest.isEmpty || rest.head? = some ';')
  | _ => false

/-- jsonTypeMatch is the unanchored search of `jsonTypeRE.MatchString`. -/
def jsonTypeMatch : List Char → Bool
  | [] => false
  | c :: rest => jsonAt (c :: rest) || jsonTypeMatch rest

/-- HttpResponse carries what the searcher reads off an HTTP response:
the status code and text, the Content-Type header, the two possible
JSON decodings of the body (into a page `Result` on the success path,
or into the `httpError` fields on the failure path — `none` modelling
a read or unmarshal failure), and the request URL Go attaches to the
response. -/
structure HttpResponse where
  statusCode : Int
  status : String
  contentType : String
  decodeResult : Option Result
  decodeError : Option (String × List HttpErrorItem)
  requestURL : URLModel
  deriving DecidableEq

/-- handleHTTPError embeds `handleHTTPError` (searcher.go lines
161-178): without a JSON content type the error carries the status
line; otherwise the body is decoded into the error's message and
items, a failed decode propagating as a plain error. -/
def handleHTTPError (resp : HttpResponse) : Except String HttpError :=
  if jsonTypeMatch resp.contentType.data = false then
    .ok { errors := [], message := resp.status, requestURL := resp.requestURL,
          statusCode := resp.statusCode }
  else
    match resp.decodeError with
    | none => .error "unexpected end of JSON input"
    | some me =>
      .ok { errors := me.2, message := me.1, requestURL := resp.requestURL,
            statusCode := resp.statusCode }

/-! ## The paginated search loop (searcher.go lines 29-88) -/

/-- perPage is the per-page arithmetic of the loop body (lines 50-57):
`remaining = limit - i*100`; `per_page` is 100 when more than 100
remain, the full limit when nothing remains, the remainder
otherwise. -/
def perPage (limit i : Int) : Int :=
  let remaining := limit - i * 100
  if remaining > 100 then 100
  else if remaining ≤ 0 then limit
  else remaining

/-- searchPageCount is `int(math.Ceil(float64(limit) / float64(100)))`
(line 47); exact for the magnitudes a Go `int` limit can hold. -/
def searchPageCount (limit : Int) : Nat :=
  ((limit + 99) / 100).toNat

/-- searchRequests lists the `(page, per_page)` pairs the loop issues,
in request order. -/
def searchRequests (limit : Int) : List (Int × Int) :=
  (List.range' 1 (searchPageCount limit)).map
    (fun i => (Int.ofNat i, perPage limit (Int.ofNat i)))

/-- Fetched is what one round trip through the injected HTTP client
produces: a transport-level error from `client.Do`, or a response. -/
inductive Fetched where
  | transportErr (msg : String)
  | response (resp : HttpResponse)
  deriving DecidableEq

/-- SearchError classifies the abort causes of the loop: transport
errors, body read/decode errors, and classified HTTP errors. -/
inductive SearchError where
  | transport (msg : String)
  | decode (msg : String)
  | http (e : HttpError)
  deriving DecidableEq

/-- processResponse is the per-response part of the loop body (lines
70-82): a 2xx response must decode into a page result, anything else
goes through `handleHTTPError`. -/
def processResponse (resp : HttpResponse) : Except SearchError Result :=
  if 200 ≤ resp.statusCode ∧ resp.statusCode < 300 then
    match resp.decodeResult with
    | none => .error (.decode "unexpected end of JSON input")
    | some page => .ok page
  else
    match handleHTTPError resp with
    | .error m => .error (.decode m)
    | .ok e => .error (.http e)

/-- aggregatePage is the success path of the loop body (lines 83-85):
`incomplete_results` and `total_count` are overwritten with the page's
values, the page's items are appended. -/
def aggregatePage (acc page : Result) : Result :=
  { incompleteResults := page.incompleteResults,
    totalCount := page.totalCount,
    items := acc.items ++ page.items }

/-- searchLoop is the pagination loop (lines 48-86) over the pending
`(page, per_page)` requests, with the network round trip abstracted as
`fetch`: any failure aborts with a classified error, a success feeds
the aggregate. -/
def searchLoop (fetch : Int × Int → Fetched) :
    List (Int × Int) → Result → Except SearchError Result
  | [], acc => .ok acc
  | r :: rest, acc =>
    match fetch r with
    | .transportErr m => .error (.transport m)
    | .response resp =>
      match processResponse resp with
      | .error e => .error e
      | .ok page => searchLoop fetch rest (aggregatePage acc page)

/-- Search embeds the method `Search` (lines 29-88) with the transport
injected: issue the paginated requests for the query's limit, starting
from the zero-valued aggregate. -/
def Search (fetch : Int × Int → Fetched) (query : Query) : Except SearchError Result :=
  searchLoop fetch (searchRequests query.limit) {}

/-! ## The browser URL (searcher.go lines 90-110) -/

/-- buildQ builds the `q` search string shared by `Search` and `URL`
(lines 33-39 and 100-106): quoted keywords joined by spaces, then one
` key:value` per set qualifier, the value quoted by
`quoteQualifier`. -/
def buildQ (keywords : List String) (qualifiers : List Qualifier) : String :=
  String.intercalate " " (keywords.map quoteKeyword) ++
    String.join ((ListSet qualifiers).map (fun kv => " " ++ kv.1 ++ ":" ++ quoteQualifier kv.2))

/-- URL embeds the method `URL` (lines 90-110). Go's `quoteKeywords`
writes the quoted keywords back into the caller's slice, so the
caller-visible post-state of the query is returned alongside the
rendered browser URL; no transport is involved. -/
def URL (host : String) (query : Query) : String × Query :=
  let vs0 := valuesSet [] "type" query.kind
  let vs1 := if query.order.set then valuesSet vs0 query.order.key query.order.value else vs0
  let vs2 := if query.sort.set then valuesSet vs1 query.sort.key query.sort.value else vs1
  let quoted := query.keywords.map quoteKeyword
  let vs3 := valuesAdd vs2 "q" (buildQ query.keywords query.qualifiers)
  ("https://" ++ host ++ "/search" ++ "?" ++ valuesEncode vs3,
   { query with keywords := quoted })

/-! ## Auxiliary notions used by the theorems -/

/-- startsWithList decides whether the second list begins with the
first. -/
def startsWithList : List Char → List Char → Bool
  | [], _ => true
  | _ :: _, [] => false
  | c :: cs, x :: xs => c = x && startsWithList cs xs

/-- hasSub decides whether a pattern occurs contiguously somewhere in a
list. -/
def hasSub (pat : List Char) : List Char → Bool
  | [] => startsWithList pat []
  | x :: rest => startsWithList pat (x :: rest) || hasSub pat rest

/-- strContains decides substring occurrence on strings. -/
def strContains (hay pat : String) : Bool :=
  hasSub pat.data hay.data

/-- okResponse is the canonical successful page response carrying a
decoded page result. -/
def okResponse (p : Result) : HttpResponse :=
  { statusCode := 200, status := "200 OK",
    contentType := "application/json; charset=utf-8",
    decodeResult := some p, decodeError := none,
    requestURL := { path := "", query := [] } }

/-- The specification-side grammar of the optional `..` tail of a range
token: nothing, or `..` followed by `*` or a nonempty integer. -/
def TailSpec (t : List Char) : Prop :=
  t = [] ∨ ∃ x, t = '.' :: '.' :: x ∧ (x = ['*'] ∨ (x ≠ [] ∧ ∀ c ∈ x, isDig c = true))

/-- RangeGrammar is the range grammar stated by the specification: an
optional comparator among `>`, `>=`, `<`, `<=`, `*..`, followed by a
nonempty integer, optionally followed by `..` and either `*` or
another nonempty integer. -/
def RangeGrammar (s : String) : Prop :=
  ∃ p d t, p ∈ rangeStarts ∧ s.data = p ++ d ++ t ∧ d ≠ [] ∧
    (∀ c ∈ d, isDig c = true) ∧ TailSpec t

/-! ## Concrete fixtures used by witnesses and counterexamples -/

/-- A stars qualifier guarded by the range validator. -/
def qStars : Qualifier :=
  NewQualifier "stars" "string" "" (some RangeValidator)

/-- Request URL of the 422 scenario: no keywords, one qualifier, so the
submitted `q` carries a leading space. -/
def u422 : URLModel :=
  { path := "https://api.example.com/search/repositories",
    query := [("page", "1"), ("per_page", "30"), ("q", " stars:5")] }

/-- A 422 response whose JSON body decodes to one error item. -/
def resp422 : HttpResponse :=
  { statusCode := 422, status := "422 Unprocessable Entity",
    contentType := "application/json; charset=utf-8",
    decodeResult := none,
    decodeError := some ("Validation Failed", [{ message := "bad qualifier" }]),
    requestURL := u422 }

/-- Transport returning the 422 response for every request. -/
def fetch422 : Int × Int → Fetched := fun _ => .response resp422

/-- The classified error the searcher builds from `resp422`. -/
def herr422 : HttpError :=
  { errors := [{ message := "bad qualifier" }], message := "Validation Failed",
    requestURL := u422, statusCode := 422 }

/-- A 422 error whose decoded body held no error items. -/
def herr422empty : HttpError :=
  { errors := [], message := "Validation Failed", requestURL := u422, statusCode := 422 }

/-- Request URL of the 404 scenario. -/
def u404 : URLModel :=
  { path := "https://api.example.com/search/repositories",
    query := [("page", "1"), ("per_page", "30"), ("q", "cli")] }

/-- A 404 response without a JSON content type. -/
def resp404 : HttpResponse :=
  { statusCode := 404, status := "404 Not Found", contentType := "text/html",
    decodeResult := none, decodeError := none, requestURL := u404 }

/-- Transport returning the 404 response for every request. -/
def fetch404 : Int × Int → Fetched := fun _ => .response resp404

/-- First page of the aggregation scenario. -/
def page1 : Result :=
  { incompleteResults := false, items := [[("name", "one")]], totalCount := 500 }

/-- Second page of the aggregation scenario. -/
def page2 : Result :=
  { incompleteResults := true, items := [[("name", "two")]], totalCount := 500 }

/-- Page chooser of the aggregation scenario. -/
def pgTwo : Int × Int → Result := fun r => if r.1 = 1 then page1 else page2

/-- Transport of the aggregation scenario: every page succeeds. -/
def fetchTwo : Int × Int → Fetched := fun r => .response (okResponse (pgTwo r))

/-- An order parameter, unset, as `NewParameter` builds it. -/
def pOrder : Qualifier := NewQualifier "order" "string" "" none

/-- A sort parameter, unset. -/
def pSort : Qualifier := NewQualifier "sort" "string" "" none

/-- A query whose single keyword needs quoting. -/
def qMut : Query :=
  { keywords := ["hello world"], kind := "repositories", limit := 30,
    order := pOrder, sort := pSort, qualifiers := [] }

/-- A query whose single keyword needs no quoting. -/
def qPlain : Query :=
  { keywords := ["cli"], kind := "repositories", limit := 30,
    order := pOrder, sort := pSort, qualifiers := [] }

/-! ## Claim C1 — pagination formula -/

/-- Claim C1: for a limit in `[1, 1000]` the loop issues requests for
pages `1 .. ceil(limit/100)` (the length bounds characterize the
ceiling), and every request's per_page follows the source formula on
`remaining = limit - i*100`. -/
theorem search_pagination_formula (limit : Int) (h1 : 1 ≤ limit) (h2 : limit ≤ 1000) :
    (searchRequests limit).map Prod.fst =
      (List.range' 1 (searchRequests limit).length).map Int.ofNat ∧
    100 * ((searchRequests limit).length : Int) - 100 < limit ∧
    limit ≤ 100 * ((searchRequests limit).length : Int) ∧
    ∀ p ∈ searchRequests limit,
      p.2 = if limit - p.1 * 100 > 100 then 100
            else if limit - p.1 * 100 ≤ 0 then limit
            else limit - p.1 * 100 := by
  have hlen : (searchRequests limit).length = searchPageCount limit := by
    unfold searchRequests
    rw [List.length_map, List.length_range']
  refine ⟨?_, ?_, ?_, ?_⟩
  · rw [hlen]
    unfold searchRequests
    rw [List.map_map]
    rfl
  · rw [hlen]
    unfold searchPageCount
    omega
  · rw [hlen]
    unfold searchPageCount
    omega
  · intro p hp
    simp only [searchRequests, List.mem_map] at hp
    obtain ⟨i, hi, rfl⟩ := hp
    rfl

/-- Claim C1 (witness): the formula instantiated at limit 250. -/
theorem search_pagination_formula_witness :
    (1 : Int) ≤ 250 ∧ (250 : Int) ≤ 1000 ∧
    ((searchRequests 250).map Prod.fst =
      (List.range' 1 (searchRequests 250).length).map Int.ofNat ∧
    100 * ((searchRequests 250).length : Int) - 100 < 250 ∧
    (250 : Int) ≤ 100 * ((searchRequests 250).length : Int) ∧
    ∀ p ∈ searchRequests 250,
      p.2 = if (250 : Int) - p.1 * 100 > 100 then 100
            else if (250 : Int) - p.1 * 100 ≤ 0 then 250
            else 250 - p.1 * 100) :=
  ⟨by decide, by decide, search_pagination_formula 250 (by decide) (by decide)⟩

/-! ## Claim C2 — pagination worked example -/

/-- Claim C2 (counterexample): the claimed request sequence for
`limit = 250` — per_page 100, 100, 50 — is not what the loop issues. -/
theorem pagination_example_cex :
    searchRequests 250 ≠ [(1, 100), (2, 100), (3, 50)] := by
  decide

/-- Claim C2 (amended): for `limit = 250` the loop issues three
requests with per_page 100, 50 and 250 (the formula
`remaining = limit - i*100` makes page 2 the partial page and resets
the final page to the full limit); for `limit = 100` one request with
per_page 100; for `limit = 30` one request with per_page 30. -/
theorem pagination_example_amended :
    searchRequests 250 = [(1, 100), (2, 50), (3, 250)] ∧
    searchRequests 100 = [(1, 100)] ∧
    searchRequests 30 = [(1, 30)] := by
  decide

/-! ## Claim C4 — Set and validator rejection -/

/-- Claim C4: when the attached validator rejects the candidate, `Set`
returns that error and the instance is exactly the one from before the
call; when the validator accepts it, or none is attached, `Set`
returns no error, stores the candidate and raises the `set` flag,
leaving the other fields alone. -/
theorem set_validator_semantics (q : Qualifier) (v : String) :
    (∀ f err, q.validator = some f → f v = some err →
      setQ q v = (some err, q)) ∧
    ((q.validator = none ∨ ∃ f, q.validator = some f ∧ f v = none) →
      (setQ q v).1 = none ∧ (setQ q v).2.set = true ∧ (setQ q v).2.value = v ∧
        (setQ q v).2.key = q.key ∧ (setQ q v).2.kind = q.kind ∧
        (setQ q v).2.validator = q.validator) := by
  constructor
  · intro f err hf hfv
    simp [setQ, hf, hfv]
  · rintro (h | ⟨f, hf, hfv⟩) <;> simp [setQ, *]

/-- Claim C4 (witness): the range-validated stars qualifier rejects
`abc` untouched and accepts `>=10`. -/
theorem set_validator_semantics_witness :
    setQ qStars "abc" = (some "abc is an invalid range format", qStars) ∧
    ((setQ qStars ">=10").1 = none ∧ (setQ qStars ">=10").2.set = true ∧
      (setQ qStars ">=10").2.value = ">=10" ∧
      (setQ qStars ">=10").2.key = qStars.key ∧
      (setQ qStars ">=10").2.kind = qStars.kind ∧
      (setQ qStars ">=10").2.validator = qStars.validator) :=
  ⟨(set_validator_semantics qStars "abc").1 RangeValidator
      "abc is an invalid range format" rfl (by decide),
   (set_validator_semantics qStars ">=10").2 (Or.inr ⟨RangeValidator, rfl, by decide⟩)⟩

/-! ## Claim C6 — keyword quoting -/

/-- splitN2Colon_spec: on a list containing a colon, `SplitN(·, ":", 2)`
returns the colon-free part before the first colon and everything
after it. -/
theorem splitN2Colon_spec : ∀ l : List Char, ':' ∈ l →
    ∃ a b, splitN2Colon l = (a, some b) ∧ l = a ++ ':' :: b ∧ ':' ∉ a := by
  intro l
  induction l with
  | nil => intro h; simp at h
  | cons c rest ih =>
    intro h
    by_cases hc : c = ':'
    · subst hc
      exact ⟨[], rest, by simp [splitN2Colon], rfl, by simp⟩
    · have hrest : ':' ∈ rest := by
        rcases List.mem_cons.mp h with h' | h'
        · exact absurd h'.symm hc
        · exact h'
      obtain ⟨a, b, h1, h2, h3⟩ := ih hrest
      refine ⟨c :: a, b, by simp [splitN2Colon, hc, h1], by simp [h2], ?_⟩
      intro hmem
      rcases List.mem_cons.mp hmem with h' | h'
      · exact hc h'.symm
      · exact h3 h'

/-- Claim C6: a keyword containing whitespace or a quote splits at its
first colon with only the part after the colon quoted; with no colon
the whole keyword is quoted; a keyword with neither is unchanged — and
the three worked examples. -/
theorem keyword_quoting (k : String) :
    (containsAnyQuoteWs k.data = true → k.data.contains ':' = true →
      ∃ a b, k.data = a ++ ':' :: b ∧ ':' ∉ a ∧
        quoteKeyword k = ⟨a ++ ':' :: goQuote b⟩) ∧
    (containsAnyQuoteWs k.data = true → k.data.contains ':' = false →
      quoteKeyword k = goQuoteStr k) ∧
    (containsAnyQuoteWs k.data = false → quoteKeyword k = k) ∧
    quoteKeyword "hello world" = "\"hello world\"" ∧
    quoteKeyword "label:in progress" = "label:\"in progress\"" ∧
    quoteKeyword "simple" = "simple" := by
  refine ⟨?_, ?_, ?_, by decide, by decide, by decide⟩
  · intro h1 h2
    have h2' : ':' ∈ k.data := by simpa using h2
    obtain ⟨a, b, hs, heq, hnc⟩ := splitN2Colon_spec k.data h2'
    exact ⟨a, b, heq, hnc, by simp [quoteKeyword, h1, h2, h2', hs]⟩
  · intro h1 h2
    have h2' : ':' ∉ k.data := by simpa using h2
    simp [quoteKeyword, h1, h2, h2']
  · intro h1
    simp [quoteKeyword, h1]

/-- Claim C6 (witness): the no-colon branch instantiated at
`hello world`. -/
theorem keyword_quoting_witness :
    containsAnyQuoteWs "hello world".data = true ∧
    "hello world".data.contains ':' = false ∧
    quoteKeyword "hello world" = goQuoteStr "hello world" :=
  ⟨by decide, by decide, (keyword_quoting "hello world").2.1 (by decide) (by decide)⟩

/-! ## Claim C5 — `set` iff a successful `Set`, unset excluded from output -/

/-- setQ_validator: `Set` never changes the attached validator. -/
theorem setQ_validator (q : Qualifier) (v : String) :
    (setQ q v).2.validator = q.validator := by
  rcases hq : q.validator with _ | f
  · simp [setQ, hq]
  · rcases hfv : f v with _ | err <;> simp [setQ, hq, hfv]

/-- setQ_set: after one `Set`, the flag is the old flag or-ed with the
validator's verdict on the candidate. -/
theorem setQ_set (q : Qualifier) (v : String) :
    (setQ q v).2.set = (q.set || accepts q v) := by
  rcases hq : q.validator with _ | f
  · simp [setQ, accepts, hq]
  · rcases hfv : f v with _ | err <;> simp [setQ, accepts, hq, hfv]

/-- accepts_setQ: acceptance is stable across `Set` calls. -/
theorem accepts_setQ (q : Qualifier) (v u : String) :
    accepts (setQ q v).2 u = accepts q u := by
  unfold accepts
  rw [setQ_validator]

/-- applySets_set: after any sequence of `Set` calls the flag is the
initial flag or-ed with acceptance of some candidate. -/
theorem applySets_set : ∀ (vs : List String) (q : Qualifier),
    (applySets q vs).set = (q.set || vs.any (fun u => accepts q u)) := by
  intro vs
  induction vs with
  | nil => intro q; simp [applySets]
  | cons v vs ih =>
    intro q
    show (applySets (setQ q v).2 vs).set = _
    rw [ih, setQ_set]
    have hfa : (fun u => accepts (setQ q v).2 u) = fun u => accepts q u :=
      funext (fun u => accepts_setQ q v u)
    rw [hfa]
    simp [List.any_cons, Bool.or_assoc]

/-- Claim C5: starting from a freshly constructed qualifier, the flag
is raised after a call sequence exactly when some call's candidate was
accepted; a fresh qualifier is unset even with a non-empty default and
contributes nothing to `ListSet`; every `ListSet` token comes from a
set qualifier. -/
theorem isset_iff_accepted_set (key kind dv : String)
    (val : Option (String → Option String)) (vs : List String) :
    ((applySets (NewQualifier key kind dv val) vs).set = true ↔
      ∃ u ∈ vs, accepts (NewQualifier key kind dv val) u = true) ∧
    (NewQualifier key kind dv val).set = false ∧
    ListSet [NewQualifier key kind dv val] = [] ∧
    (∀ qs : List Qualifier, ∀ pr ∈ ListSet qs,
      ∃ q ∈ qs, q.set = true ∧ pr = (q.key, q.value)) := by
  refine ⟨?_, rfl, by simp [ListSet, NewQualifier], ?_⟩
  · rw [applySets_set]
    simp [NewQualifier, List.any_eq_true]
  · intro qs pr hpr
    simp only [ListSet, List.mem_map, List.mem_filter] at hpr
    obtain ⟨q, ⟨hq, hset⟩, rfl⟩ := hpr
    exact ⟨q, hq, hset, rfl⟩

/-- Claim C5 (witness): the stars qualifier with non-empty default `5`
instantiated with the single accepted call `>=10`. -/
theorem isset_iff_accepted_set_witness :
    ((applySets (NewQualifier "stars" "string" "5" (some RangeValidator)) [">=10"]).set = true ↔
      ∃ u ∈ [">=10"], accepts (NewQualifier "stars" "string" "5" (some RangeValidator)) u = true) ∧
    (NewQualifier "stars" "string" "5" (some RangeValidator)).set = false ∧
    ListSet [NewQualifier "stars" "string" "5" (some RangeValidator)] = [] ∧
    (∀ qs : List Qualifier, ∀ pr ∈ ListSet qs,
      ∃ q ∈ qs, q.set = true ∧ pr = (q.key, q.value)) :=
  isset_iff_accepted_set "stars" "string" "5" (some RangeValidator) [">=10"]

/-! ## Claim C3 — aggregation across successful pages -/

/-- processResponse_ok: a 2xx response with a decoded body yields its
page result. -/
theorem processResponse_ok (p : Result) : processResponse (okResponse p) = .ok p := by
  norm_num [processResponse, okResponse]

/-- searchLoop_all_ok: over all-successful requests the loop folds the
pages into the aggregate. -/
theorem searchLoop_all_ok (fetch : Int × Int → Fetched) (pg : Int × Int → Result) :
    ∀ (reqs : List (Int × Int)) (acc : Result),
    (∀ r ∈ reqs, fetch r = .response (okResponse (pg r))) →
    searchLoop fetch reqs acc =
      .ok (reqs.foldl (fun a r => aggregatePage a (pg r)) acc) := by
  intro reqs
  induction reqs with
  | nil => intro acc h; rfl
  | cons r rest ih =>
    intro acc h
    have hr := h r (List.mem_cons_self r rest)
    simp only [searchLoop, hr, processResponse_ok, List.foldl_cons]
    exact ih _ (fun s hs => h s (List.mem_cons_of_mem _ hs))

/-- foldl_agg_items: the folded aggregate's items are the accumulator's
items followed by every page's items in order. -/
theorem foldl_agg_items (pg : Int × Int → Result) :
    ∀ (reqs : List (Int × Int)) (acc : Result),
    (reqs.foldl (fun a r => aggregatePage a (pg r)) acc).items =
      acc.items ++ (reqs.map (fun r => (pg r).items)).flatten := by
  intro reqs
  induction reqs with
  | nil => intro acc; simp
  | cons r rest ih =>
    intro acc
    simp only [List.foldl_cons, List.map_cons, List.flatten]
    rw [ih]
    simp [aggregatePage, List.append_assoc]

/-- Claim C3: when every page succeeds, the aggregate's
`incomplete_results` and `total_count` are the last page's values and
its items are the concatenation of all pages' items in request
order. -/
theorem aggregate_last_page_wins (reqs : List (Int × Int)) (rl : Int × Int)
    (fetch : Int × Int → Fetched) (pg : Int × Int → Result)
    (hok : ∀ r ∈ reqs ++ [rl], fetch r = .response (okResponse (pg r))) :
    ∃ R, searchLoop fetch (reqs ++ [rl]) {} = .ok R ∧
      R.incompleteResults = (pg rl).incompleteResults ∧
      R.totalCount = (pg rl).totalCount ∧
      R.items = ((reqs ++ [rl]).map (fun r => (pg r).items)).flatten := by
  refine ⟨_, searchLoop_all_ok fetch pg (reqs ++ [rl]) {} hok, ?_, ?_, ?_⟩
  · rw [List.foldl_append]
    rfl
  · rw [List.foldl_append]
    rfl
  · simpa using foldl_agg_items pg (reqs ++ [rl]) {}

/-- Claim C3 (witness): two successful pages with `total_count` 500
both times and `incomplete_results` false then true. -/
theorem aggregate_last_page_wins_witness :
    ∃ R, searchLoop fetchTwo ([((1 : Int), (100 : Int))] ++ [((2 : Int), (100 : Int))]) {} =
        .ok R ∧
      R.incompleteResults = (pgTwo (2, 100)).incompleteResults ∧
      R.totalCount = (pgTwo (2, 100)).totalCount ∧
      R.items = (([((1 : Int), (100 : Int))] ++ [((2 : Int), (100 : Int))]).map
        (fun r => (pgTwo r).items)).flatten :=
  aggregate_last_page_wins [(1, 100)] (2, 100) fetchTwo pgTwo (fun _ _ => rfl)

/-! ## Claim C8 — abort and message of classified HTTP failures -/

/-- searchLoop_append_ok: successful leading requests only advance the
accumulator. -/
theorem searchLoop_append_ok (fetch : Int × Int → Fetched) (pg : Int × Int → Result) :
    ∀ (reqs1 rest' : List (Int × Int)) (acc : Result),
    (∀ s ∈ reqs1, fetch s = .response (okResponse (pg s))) →
    searchLoop fetch (reqs1 ++ rest') acc =
      searchLoop fetch rest' (reqs1.foldl (fun a r => aggregatePage a (pg r)) acc) := by
  intro reqs1
  induction reqs1 with
  | nil => intro rest' acc h; rfl
  | cons r rs ih =>
    intro rest' acc h
    have hr := h r (List.mem_cons_self r rs)
    simp only [List.cons_append, searchLoop, hr, processResponse_ok, List.foldl_cons]
    exact ih rest' _ (fun s hs => h s (List.mem_cons_of_mem _ hs))

/-- Claim C8 (amended): after any run of successful pages, a non-2xx
response aborts the loop with a classified HTTP error whose status,
request URL, message and error items are pinned to the response (the
message is the status line for a non-JSON body, the decoded body's
message field otherwise); when the status is not 422 the rendered
message is exactly `HTTP <status>: <statusText> (<url>)` with that
pinned message as the status text; when it is 422 the message carries
the whitespace-trimmed, Go-quoted submitted `q` and the first
server-reported error detail. -/
theorem http_failure_aborts (reqs1 : List (Int × Int)) (r : Int × Int)
    (reqs2 : List (Int × Int)) (fetch : Int × Int → Fetched) (pg : Int × Int → Result)
    (resp : HttpResponse)
    (hok : ∀ s ∈ reqs1, fetch s = .response (okResponse (pg s)))
    (hr : fetch r = .response resp)
    (hfail : resp.statusCode < 200 ∨ 300 ≤ resp.statusCode)
    (hbody : jsonTypeMatch resp.contentType.data = false ∨
      ∃ me, resp.decodeError = some me) :
    ∃ e, searchLoop fetch (reqs1 ++ r :: reqs2) {} = .error (.http e) ∧
      e.statusCode = resp.statusCode ∧ e.requestURL = resp.requestURL ∧
      (jsonTypeMatch resp.contentType.data = false →
        e.message = resp.status ∧ e.errors = []) ∧
      (∀ me, jsonTypeMatch resp.contentType.data = true → resp.decodeError = some me →
        e.message = me.1 ∧ e.errors = me.2) ∧
      (resp.statusCode ≠ 422 →
        e.Error = some ("HTTP " ++ toString resp.statusCode ++ ": " ++ e.message ++ " (" ++
          resp.requestURL.render ++ ")")) ∧
      (∀ me e0 rest, resp.statusCode = 422 →
        jsonTypeMatch resp.contentType.data = true →
        resp.decodeError = some me → me.2 = e0 :: rest →
        e.Error = some ("Invalid search query " ++
          goQuoteStr (trimSpace (resp.requestURL.getParam "q")) ++ ".\n" ++ e0.message)) := by
  rw [searchLoop_append_ok fetch pg reqs1 (r :: reqs2) {} hok]
  have hnot : ¬ (200 ≤ resp.statusCode ∧ resp.statusCode < 300) := by omega
  cases hj : jsonTypeMatch resp.contentType.data
  · refine ⟨{ errors := [], message := resp.status, requestURL := resp.requestURL,
              statusCode := resp.statusCode }, ?_, rfl, rfl, ?_, ?_, ?_, ?_⟩
    · simp only [searchLoop, hr]
      simp [processResponse, hnot, handleHTTPError, hj]
    · intro _
      exact ⟨rfl, rfl⟩
    · intro me hjson hme
      simp at hjson
    · intro h422
      simp [HttpError.Error, h422]
    · intro me e0 rest h422 hjson hme hcons
      simp at hjson
  · have hme : ∃ me, resp.decodeError = some me := by
      rcases hbody with hb | hb
      · rw [hj] at hb; simp at hb
      · exact hb
    obtain ⟨me, hme⟩ := hme
    refine ⟨{ errors := me.2, message := me.1, requestURL := resp.requestURL,
              statusCode := resp.statusCode }, ?_, rfl, rfl, ?_, ?_, ?_, ?_⟩
    · simp only [searchLoop, hr]
      simp [processResponse, hnot, handleHTTPError, hj, hme]
    · intro hfalse
      simp at hfalse
    · intro me' hjson hme'
      rw [hme] at hme'
      have heq : me = me' := by injection hme'
      subst heq
      exact ⟨rfl, rfl⟩
    · intro h422
      simp [HttpError.Error, h422]
    · intro me' e0 rest h422 hjson hme' hcons
      rw [hme] at hme'
      have heq : me = me' := by injection hme'
      subst heq
      simp [HttpError.Error, h422, hcons]

/-- Claim C8 (witness): a 404 with a non-JSON body aborts the single
requested page with the status line as the pinned message. -/
theorem http_failure_aborts_witness :
    ∃ e, searchLoop fetch404 ([] ++ ((1 : Int), (30 : Int)) :: []) {} = .error (.http e) ∧
      e.statusCode = resp404.statusCode ∧ e.requestURL = resp404.requestURL ∧
      (jsonTypeMatch resp404.contentType.data = false →
        e.message = resp404.status ∧ e.errors = []) ∧
      (∀ me, jsonTypeMatch resp404.contentType.data = true → resp404.decodeError = some me →
        e.message = me.1 ∧ e.errors = me.2) ∧
      (resp404.statusCode ≠ 422 →
        e.Error = some ("HTTP " ++ toString resp404.statusCode ++ ": " ++ e.message ++ " (" ++
          resp404.requestURL.render ++ ")")) ∧
      (∀ me e0 rest, resp404.statusCode = 422 →
        jsonTypeMatch resp404.contentType.data = true →
        resp404.decodeError = some me → me.2 = e0 :: rest →
        e.Error = some ("Invalid search query " ++
          goQuoteStr (trimSpace (resp404.requestURL.getParam "q")) ++ ".\n" ++ e0.message)) :=
  http_failure_aborts [] (1, 30) [] fetch404 (fun _ => {}) resp404
    (fun s hs => absurd hs (List.not_mem_nil s)) rfl (by decide) (Or.inl (by decide))

/-- Claim C8 (counterexample): the 422 message carries the trimmed,
Go-quoted `q`, not the literal submitted one — with no keywords the
submitted `q` starts with a space and does not occur in the message. -/
theorem http_422_literal_q_cex :
    searchLoop fetch422 [((1 : Int), (30 : Int))] {} = .error (.http herr422) ∧
    herr422.requestURL.getParam "q" = " stars:5" ∧
    herr422.Error = some "Invalid search query \"stars:5\".\nbad qualifier" ∧
    strContains "Invalid search query \"stars:5\".\nbad qualifier" " stars:5" = false := by
  refine ⟨rfl, by decide, by decide, by decide⟩

/-! ## Claim C9 — `URL` purity and the keywords slice -/

/-- quoteKeyword_id: a keyword without whitespace or quotes is left
unchanged. -/
theorem quoteKeyword_id (k : String) (h : containsAnyQuoteWs k.data = false) :
    quoteKeyword k = k := by
  simp [quoteKeyword, h]

/-- map_quoteKeyword_id: quoting a list of plain keywords is the
identity. -/
theorem map_quoteKeyword_id : ∀ ks : List String,
    (∀ k ∈ ks, containsAnyQuoteWs k.data = false) → ks.map quoteKeyword = ks := by
  intro ks
  induction ks with
  | nil => intro h; rfl
  | cons k rest ih =>
    intro h
    rw [List.map_cons, quoteKeyword_id k (h k (List.mem_cons_self k rest)),
      ih (fun s hs => h s (List.mem_cons_of_mem _ hs))]

/-- Claim C9 (amended): `URL` performs no request and returns the
browser URL, but the caller-visible query is not untouched: every
keyword is overwritten with its quoted form (the other fields are
unchanged); when no keyword needs quoting the query really is left
as-is. -/
theorem url_browser_frame (host : String) (q : Query) :
    (URL host q).2 = { q with keywords := q.keywords.map quoteKeyword } ∧
    ((∀ k ∈ q.keywords, containsAnyQuoteWs k.data = false) → (URL host q).2 = q) := by
  constructor
  · rfl
  · intro h
    show ({ q with keywords := q.keywords.map quoteKeyword } : Query) = q
    rw [map_quoteKeyword_id q.keywords h]

/-- Claim C9 (witness): a query whose only keyword is plain text comes
back unchanged. -/
theorem url_browser_frame_witness :
    (URL "example.com" qPlain).2 = qPlain :=
  (url_browser_frame "example.com" qPlain).2 (by decide)

/-- Claim C9 (counterexample): with keyword `hello world` the caller's
keywords slice is mutated by `URL`, so the query is not left
unchanged. -/
theorem url_mutates_keywords_cex : (URL "example.com" qMut).2 ≠ qMut := by
  intro h
  have h1 : (URL "example.com" qMut).2.keywords = ["\"hello world\""] := by decide
  have h2 := congrArg Query.keywords h
  rw [h1] at h2
  exact absurd h2 (by decide)

/-! ## Claim C7 — the range grammar -/

/-- matchTailEnd_iff: the executable end matcher agrees with the
`(\*|\d+)$` language. -/
theorem matchTailEnd_iff (l : List Char) :
    matchTailEnd l = true ↔ (l = ['*'] ∨ (l ≠ [] ∧ ∀ c ∈ l, isDig c = true)) := by
  unfold matchTailEnd
  by_cases h : l = ['*']
  · simp [h]
  · simp [h, List.all_eq_true, List.isEmpty_iff]

/-- matchTail_iff: the executable tail matcher agrees with
`TailSpec`. -/
theorem matchTail_iff (t : List Char) : matchTail t = true ↔ TailSpec t := by
  match t with
  | [] => simp [matchTail, TailSpec]
  | [c] =>
    constructor
    · intro h
      exact absurd h (by simp [matchTail])
    · rintro (h | ⟨x, hx, _⟩)
      · exact absurd h (by simp)
      · simp at hx
  | c1 :: c2 :: rest =>
    constructor
    · intro h
      simp only [matchTail, Bool.and_eq_true, decide_eq_true_eq] at h
      obtain ⟨⟨h1, h2⟩, h3⟩ := h
      subst h1
      subst h2
      exact Or.inr ⟨rest, rfl, (matchTailEnd_iff rest).mp h3⟩
    · rintro (h | ⟨x, hx, hor⟩)
      · exact absurd h (by simp)
      · obtain ⟨h1, h2, h3⟩ : c1 = '.' ∧ c2 = '.' ∧ rest = x := by simpa using hx
        subst h1
        subst h2
        subst h3
        simp only [matchTail, Bool.and_eq_true, decide_eq_true_eq]
        exact ⟨⟨trivial, trivial⟩, (matchTailEnd_iff rest).mpr hor⟩

/-- takeWhile_append_all: `takeWhile` passes over a block the predicate
accepts wholesale. -/
theorem takeWhile_append_all (p : Char → Bool) (t : List Char) :
    ∀ d : List Char, (∀ c ∈ d, p c = true) →
    (d ++ t).takeWhile p = d ++ t.takeWhile p := by
  intro d
  induction d with
  | nil => intro h; rfl
  | cons c cs ih =>
    intro h
    have hc := h c (List.mem_cons_self c cs)
    simp [List.takeWhile_cons, hc, ih (fun s hs => h s (List.mem_cons_of_mem _ hs))]

/-- dropWhile_append_all: `dropWhile` drops a block the predicate
accepts wholesale. -/
theorem dropWhile_append_all (p : Char → Bool) (t : List Char) :
    ∀ d : List Char, (∀ c ∈ d, p c = true) →
    (d ++ t).dropWhile p = t.dropWhile p := by
  intro d
  induction d with
  | nil => intro h; rfl
  | cons c cs ih =>
    intro h
    have hc := h c (List.mem_cons_self c cs)
    simp [List.dropWhile_cons, hc, ih (fun s hs => h s (List.mem_cons_of_mem _ hs))]

/-- TailSpec_whiles: a tail of the grammar starts with a non-digit (or
is empty), so the digit scan stops exactly there. -/
theorem TailSpec_whiles (t : List Char) (h : TailSpec t) :
    t.takeWhile isDig = [] ∧ t.dropWhile isDig = t := by
  rcases h with h | ⟨x, hx, _⟩
  · subst h
    exact ⟨rfl, rfl⟩
  · subst hx
    have hd : isDig '.' = false := by decide
    constructor
    · simp [List.takeWhile_cons, hd]
    · simp [List.dropWhile_cons, hd]

/-- mem_takeWhile_all: everything `takeWhile` keeps satisfies the
predicate. -/
theorem mem_takeWhile_all (p : Char → Bool) :
    ∀ l : List Char, ∀ c ∈ l.takeWhile p, p c = true := by
  intro l
  induction l with
  | nil => intro c hc; simp at hc
  | cons a as ih =>
    intro c hc
    rw [List.takeWhile_cons] at hc
    by_cases hpa : p a = true
    · simp only [hpa, if_true, List.mem_cons] at hc
      rcases hc with h | h
      · subst h; exact hpa
      · exact ih c h
    · simp [hpa] at hc

/-- matchAfter_iff: the executable matcher for
`\d+(\.\.(\*|\d+))?$` agrees with its language. -/
theorem matchAfter_iff (r : List Char) :
    matchAfter r = true ↔
      ∃ d t, r = d ++ t ∧ d ≠ [] ∧ (∀ c ∈ d, isDig c = true) ∧ TailSpec t := by
  constructor
  · intro h
    unfold matchAfter at h
    rw [Bool.and_eq_true] at h
    obtain ⟨h1, h2⟩ := h
    refine ⟨r.takeWhile isDig, r.dropWhile isDig,
      (List.takeWhile_append_dropWhile isDig r).symm, ?_, ?_, ?_⟩
    · intro hemp
      rw [hemp] at h1
      simp at h1
    · exact fun c hc => mem_takeWhile_all isDig r c hc
    · exact (matchTail_iff _).mp h2
  · rintro ⟨d, t, rfl, hd, hdig, ht⟩
    unfold matchAfter
    rw [takeWhile_append_all isDig t d hdig, dropWhile_append_all isDig t d hdig,
      (TailSpec_whiles t ht).1, (TailSpec_whiles t ht).2, List.append_nil, Bool.and_eq_true]
    refine ⟨?_, (matchTail_iff t).mpr ht⟩
    cases d with
    | nil => exact absurd rfl hd
    | cons _ _ => rfl

/-- dropLit_iff: stripping a literal succeeds exactly on the lists
that extend it. -/
theorem dropLit_iff : ∀ p s r : List Char, dropLit p s = some r ↔ s = p ++ r := by
  intro p
  induction p with
  | nil => intro s r; simp [dropLit]
  | cons c cs ih =>
    intro s r
    cases s with
    | nil =>
      simp [dropLit]
    | cons x xs =>
      by_cases hc : c = x
      · subst hc
        rw [show dropLit (c :: cs) (c :: xs) = dropLit cs xs from by simp [dropLit]]
        rw [ih]
        simp
      · have hz : dropLit (c :: cs) (x :: xs) = none := by simp [dropLit, hc]
        rw [hz]
        constructor
        · intro h
          exact Option.noConfusion h
        · intro h
          rw [List.cons_append] at h
          injection h with h1 h2
          exact absurd h1.symm hc

/-- matchWith_iff: one comparator alternative matches exactly the
strings extending it by a word of the trailing language. -/
theorem matchWith_iff (p s : List Char) :
    matchWith p s = true ↔ ∃ r, s = p ++ r ∧ matchAfter r = true := by
  unfold matchWith
  cases hd : dropLit p s with
  | none =>
    constructor
    · intro h
      simp at h
    · rintro ⟨r, hr, _⟩
      have hcontra := (dropLit_iff p s r).mpr hr
      rw [hd] at hcontra
      exact Option.noConfusion hcontra
  | some r0 =>
    constructor
    · intro h
      exact ⟨r0, (dropLit_iff p s r0).mp hd, h⟩
    · rintro ⟨r, hr, hm⟩
      have heq := (dropLit_iff p s r).mpr hr
      rw [hd] at heq
      injection heq with h1
      subst h1
      exact hm

/-- Claim C7 (amended): the range validator accepts exactly the
strings of the grammar — optional comparator (`>`, `>=`, `<`, `<=`,
`*..`), a nonempty integer, optionally `..` and `*` or another
integer; it accepts `5`, `>=10`, `1..5`, `*..20`, and rejects `10..`
(the grammar's `..` tail requires a following `*` or integer), `abc`,
`5..abc` and `>>5`, each with the descriptive error message. -/
theorem range_validator_grammar :
    (∀ s : String, RangeValidator s = none ↔ RangeGrammar s) ∧
    RangeValidator "5" = none ∧ RangeValidator ">=10" = none ∧
    RangeValidator "1..5" = none ∧ RangeValidator "*..20" = none ∧
    RangeValidator "10.." = some "10.. is an invalid range format" ∧
    RangeValidator "abc" = some "abc is an invalid range format" ∧
    RangeValidator "5..abc" = some "5..abc is an invalid range format" ∧
    RangeValidator ">>5" = some ">>5 is an invalid range format" := by
  refine ⟨?_, by decide, by decide, by decide, by decide, by decide, by decide, by decide,
    by decide⟩
  intro s
  have h1 : RangeValidator s = none ↔ rangeREMatch s = true := by
    unfold RangeValidator
    by_cases h : rangeREMatch s <;> simp [h]
  rw [h1]
  unfold rangeREMatch matchRange
  rw [List.any_eq_true]
  constructor
  · rintro ⟨p, hp, hm⟩
    obtain ⟨r, hr, hma⟩ := (matchWith_iff p s.data).mp hm
    obtain ⟨d, t, rfl, hd, hdig, ht⟩ := (matchAfter_iff r).mp hma
    exact ⟨p, d, t, hp, by rw [hr, List.append_assoc], hd, hdig, ht⟩
  · rintro ⟨p, d, t, hp, hs, hd, hdig, ht⟩
    refine ⟨p, hp, (matchWith_iff p s.data).mpr ⟨d ++ t, by rw [hs, List.append_assoc], ?_⟩⟩
    exact (matchAfter_iff (d ++ t)).mpr ⟨d, t, rfl, hd, hdig, ht⟩

/-- Claim C7 (witness): the grammar equivalence evaluated at the
accepted example `>=10`. -/
theorem range_validator_grammar_witness :
    RangeValidator ">=10" = none :=
  range_validator_grammar.2.1

/-- Claim C7 (counterexample): `10..`, claimed accepted, is rejected —
the optional `..` group of `rangeRE` requires `*` or digits after the
dots, so the regular expression does not match `10..`. -/
theorem range_ten_dotdot_cex : RangeValidator "10.." ≠ none := by
  decide

/-! ## Claim C10 — `Error()` on 422 indexes `Errors[0]` -/

/-- Claim C10: on a 422 the message branch reads `Errors[0]`; with an
empty error list that access is out of bounds (the modelled panic,
`none`), so the branch is safe exactly when the list is nonempty, in
which case the message is built from the first item. -/
theorem error_422_indexes_first (e : HttpError) (h : e.statusCode = 422) :
    (e.Error = none ↔ e.errors = []) ∧
    (∀ e0 rest, e.errors = e0 :: rest →
      e.Error = some ("Invalid search query " ++
        goQuoteStr (trimSpace (e.requestURL.getParam "q")) ++ ".\n" ++ e0.message)) := by
  constructor
  · cases he : e.errors <;> simp [HttpError.Error, h, he]
  · intro e0 rest he
    simp [HttpError.Error, h, he]

/-- Claim C10 (witness): a 422 error with no items yields no message
(the Go code would panic there). -/
theorem error_422_indexes_first_witness :
    herr422empty.Error = none :=
  (error_422_indexes_first herr422empty rfl).1.mpr rfl

end GhSearch

section Scratch
open GhSearch
example : quoteKeyword "hello world" = "\"hello world\"" := by decide
example : quoteKeyword "label:in progress" = "label:\"in progress\"" := by decide
example : quoteKeyword "simple" = "simple" := by decide
example : rangeREMatch "5" = true := by decide
example : rangeREMatch ">=10" = true := by decide
example : rangeREMatch "1..5" = true := by decide
example : rangeREMatch "*..20" = true := by decide
example : rangeREMatch "10.." = false := by decide
example : rangeREMatch "abc" = false := by decide
example : rangeREMatch "5..abc" = false := by decide
example : rangeREMatch ">>5" = false := by decide
example : searchRequests 250 = [(1, 100), (2, 50), (3, 250)] := by decide
example : searchRequests 100 = [(1, 100)] := by decide
example : searchRequests 30 = [(1, 30)] := by decide
example : searchRequests 1000 =
    [(1, 100), (2, 100), (3, 100), (4, 100), (5, 100), (6, 100), (7, 100), (8, 100),
     (9, 100), (10, 1000)] := by decide
example : trimSpace " stars:5 " = "stars:5" := by decide
example : goQuoteStr "stars:5" = "\"stars:5\"" := by decide
example : jsonTypeMatch "application/json; charset=utf-8".data = true := by decide
example : jsonTypeMatch "text/html".data = false := by decide
example : jsonTypeMatch "application/vnd+json".data = true := by decide
end Scratch
